import Mathlib

/-!
# grokflux: the line-to-point translation (`parse.go`) and the batching worker (`influx.go`)

A shallow embedding of the two source files of `grokflux`.

* Go strings are byte sequences (`GoString`); indexing and slicing act on bytes.
* Go maps with string keys are association lists with distinct keys (`GoMap`).
  `lookup` is the two-result read `v, ok := m[k]`, `get` the one-result read `m[k]`
  (zero value when absent) and `set` the assignment `m[k] = v`.
* A parameter of a Go map type may hold the nil map (`MapRef`, `none`): reading a
  nil map finds no key, assigning to it panics.
* The libraries the code calls (`strconv`, `time`, the grok matcher, the InfluxDB
  client) are not part of the repository; they are a parameter (`Lib`), and every
  call with an observable effect is recorded in a trace of `Effect`s.
* A run-time panic is the result `none` of an `Option`-valued function.
-/

namespace Grokflux

/-! ## Go values -/

/-- A Go string: an immutable sequence of bytes. -/
abbrev GoString := List UInt8

/-- The Go string written with the ASCII characters of `s`. -/
def ascii (s : String) : GoString := s.data.map (fun c => c.toNat.toUInt8)

/-- The byte of the double-quote character. -/
def quote : UInt8 := 34

/-- The slice expression `s[lo:hi]` of a Go string: it panics (`none`) unless
`lo ≤ hi ≤ len(s)`. -/
def slice (s : GoString) (lo hi : Nat) : Option GoString :=
  if lo ≤ hi ∧ hi ≤ s.length then some ((s.take hi).drop lo) else none

/-- A Go `map[string]V` that has been allocated: its entries, with distinct keys. -/
abbrev GoMap (V : Type) := List (GoString × V)

namespace GoMap

variable {V : Type}

/-- The read `v, ok := m[k]`. -/
def lookup : GoMap V → GoString → Option V
  | [], _ => none
  | (k', v) :: m, k => if k' = k then some v else lookup m k

/-- The assignment `m[k] = v`. -/
def set : GoMap V → GoString → V → GoMap V
  | [], k, v => [(k, v)]
  | (k', v') :: m, k, v => if k' = k then (k, v) :: m else (k', v') :: set m k v

/-- The read `m[k]` of a `map[string]string`: the empty string when `k` is absent. -/
def get (m : GoMap GoString) (k : GoString) : GoString := (lookup m k).getD []

/-- The keys of a map. -/
def keys (m : GoMap V) : List GoString := m.map Prod.fst

end GoMap

/-- A value of a Go map type as a caller may pass it: `none` is the nil map, `some m`
a map that has been allocated. -/
abbrev MapRef (V : Type) := Option (GoMap V)

namespace MapRef

variable {V : Type}

/-- The read `v, ok := m[k]`: the nil map has no key. -/
def lookup : MapRef V → GoString → Option V
  | none, _ => none
  | some m, k => m.lookup k

/-- The assignment `m[k] = v`: it panics (`none`) on the nil map (`assignment to
entry in nil map`). -/
def assign : MapRef V → GoString → V → Option (MapRef V)
  | none, _, _ => none
  | some m, k, v => some (some (m.set k v))

end MapRef

/-- A Go `error` value that is not nil: the repository's own `ErrNoMatch`, or an
error made by one of the libraries (told apart by a number). -/
inductive GoError where
  | ErrNoMatch
  | ext (id : Nat)
  deriving DecidableEq, Repr

/-- The `interface{}` values `numerical` returns: a `float64`, an `int64` or the
string itself. `F` stands for `float64`. -/
inductive Value (F : Type) where
  | float (f : F)
  | int (i : Int)
  | str (s : GoString)
  deriving DecidableEq, Repr

/-- The dynamic type of a `Value`. -/
inductive Kind where
  | float
  | int
  | string
  deriving DecidableEq, Repr

/-- The dynamic type of the value `numerical` returned. -/
def Value.kind {F : Type} : Value F → Kind
  | .float _ => .float
  | .int _ => .int
  | .str _ => .string

/-! ## The libraries, as a parameter -/

/-- The library calls of `parse.go`. `F` stands for `float64`, `T` for `time.Time`.
Each function returns `.error e` where the Go call returns `err != nil`. -/
structure Lib (F T : Type) where
  /-- The call `strconv.ParseFloat(s, 64)`. -/
  ParseFloat : GoString → Except GoError F
  /-- The call `strconv.ParseInt(s, 0, 64)`. -/
  ParseInt : GoString → Except GoError Int
  /-- The call `time.Parse(layout, value)`. -/
  TimeParse : GoString → GoString → Except GoError T
  /-- The call `time.Now()`. -/
  Now : T
  /-- The call `g.Parse(pattern, text)` of the grok matcher. -/
  GrokParse : GoString → GoString → Except GoError (GoMap GoString)

/-- The type `Sender` of `influx.go`: key, tags, fields and timestamp to an `error`
(`none` is `nil`). -/
abbrev Sender (F T : Type) :=
  GoString → MapRef GoString → GoMap (Value F) → T → Option GoError

/-- The observable calls made while one line is processed. -/
inductive Effect (F T : Type) where
  | grokParse (pattern text : GoString)
  | timeParse (layout value : GoString)
  | timeNow
  | send (key : GoString) (tags : MapRef GoString) (fields : GoMap (Value F)) (ts : T)
  deriving DecidableEq, Repr

/-- Whether an effect is a call of the `Sender`. -/
def Effect.isSend {F T : Type} : Effect F T → Bool
  | .send _ _ _ _ => true
  | _ => false

/-- Whether an effect is a call of the pattern matcher. -/
def Effect.isGrokParse {F T : Type} : Effect F T → Bool
  | .grokParse _ _ => true
  | _ => false

/-- Whether an effect is a call of `time.Parse`. -/
def Effect.isTimeParse {F T : Type} : Effect F T → Bool
  | .timeParse _ _ => true
  | _ => false

/-! ## `parse.go` -/

/-- The struct `Translate`. -/
structure Translate where
  Pattern : GoString
  Key : GoString
  TSLayout : GoString
  TSField : GoString
  TFields : List GoString
  VFields : List GoString
  deriving DecidableEq, Repr

/-- The struct `Filter`; `Valid` is `none` for a nil map. -/
structure Filter where
  Pattern : GoString
  Key : GoString
  Good : List GoString
  Tags : List GoString
  Valid : Option (GoMap GoString)
  deriving DecidableEq, Repr

section Parse

variable {F T : Type}

/-- The function `numerical`: the float parse is tried first, then the integer
parse, and the string itself is returned when both fail. -/
def numerical (lib : Lib F T) (s : GoString) : Value F :=
  match lib.ParseFloat s with
  | .ok f => .float f
  | .error _ =>
    match lib.ParseInt s with
    | .ok i => .int i
    | .error _ => .str s

/-- What `AddPoint` returns and leaves behind: the error, the caller's `tags` map
(assigned to in place) and the calls made. -/
structure AddPointRet (F T : Type) where
  err : Option GoError
  tags : MapRef GoString
  trace : List (Effect F T)

/-- The value `found` of `AddPoint`: `m[t.Key]` when the key is present, else `t.Key`. -/
def pointKey (m : GoMap GoString) (t : Translate) : GoString :=
  match m.lookup t.Key with
  | some found => found
  | none => t.Key

/-- The loop `for _, tag := range t.TFields { tags[tag] = m[tag] }` on a map `tags`
that has been allocated. -/
def pointTags (m tags : GoMap GoString) (tfields : List GoString) : GoMap GoString :=
  tfields.foldl (fun tg tag => tg.set tag (m.get tag)) tags

/-- The loop `for _, val := range t.VFields { f[val] = numerical(m[val]) }` over a
fresh map. -/
def pointFields (lib : Lib F T) (m : GoMap GoString) (vfields : List GoString) :
    GoMap (Value F) :=
  vfields.foldl (fun f val => f.set val (numerical lib (m.get val))) []

/-- The loop `for _, tag := range t.TFields { tags[tag] = m[tag] }` on the `tags` the
caller passed, nil or not: each round is one assignment, which panics (`none`) when
`tags` is nil. With no tag field there is no round and a nil `tags` stays as it is. -/
def tagLoop (m : GoMap GoString) : MapRef GoString → List GoString →
    Option (MapRef GoString)
  | tags, [] => some tags
  | tags, tag :: tfields =>
    (MapRef.assign tags tag (m.get tag)).bind (fun tags => tagLoop m tags tfields)

/-- The function `AddPoint`; `none` is a run-time panic. The record `m` is only read
(a nil record reads as the empty one); `tags` is whatever the caller passed, the nil
map included. -/
def AddPoint (lib : Lib F T) (m : GoMap GoString) (tags : MapRef GoString)
    (t : Translate) (send : Sender F T) : Option (AddPointRet F T) :=
  let found := pointKey m t
  match tagLoop m tags t.TFields with
  | none => none
  | some tags =>
    let f := pointFields lib m t.VFields
    if 0 < t.TSLayout.length ∧ 0 < t.TSField.length then
      match lib.TimeParse t.TSLayout (m.get t.TSField) with
      | .error err => some ⟨some err, tags, [.timeParse t.TSLayout (m.get t.TSField)]⟩
      | .ok ts =>
        some ⟨send found tags f ts, tags,
          [.timeParse t.TSLayout (m.get t.TSField), .send found tags f ts]⟩
    else
      some ⟨send found tags f lib.Now, tags, [.timeNow, .send found tags f lib.Now]⟩

/-- The quote stripping of `refine`:
`if len(v) > 0 && v[0] == '"' { v = v[1 : len(v)-1] }`. The slice panics (`none`)
when its bounds are out of order. -/
def stripQuotes (v : GoString) : Option GoString :=
  if 0 < v.length ∧ v.head? = some quote then slice v 1 (v.length - 1) else some v

/-- One round of the loop `for k, v := range matched`: strip the quotes, then
`data[k] = v`. -/
def storeCapture (data : GoMap GoString) (kv : GoString × GoString) :
    Option (GoMap GoString) :=
  (stripQuotes kv.2).map (fun v => data.set kv.1 v)

/-- The loop `for k, v := range matched` of `refine`, run in the order of the
entries. Go leaves the order of a `range` over a map open: whether the loop panics,
and what the record reads once it has run through, are the same in every order
(`storeCaptures_eq_none_iff`, `storeCaptures_lookup`). -/
def storeCaptures (data : GoMap GoString) : GoMap GoString → Option (GoMap GoString)
  | [] => some data
  | kv :: matched => (storeCapture data kv).bind (fun data => storeCaptures data matched)

/-- The loop `for k, v := range f.Valid`: whether some entry has `data[k] != v`. -/
def validMismatch (data valid : GoMap GoString) : Bool :=
  valid.any (fun kv => decide (data.get kv.1 ≠ kv.2))

/-- What `refine` returns and leaves behind: the error, the map `data` and the
struct `*trans` (both assigned to in place) and the calls made. -/
structure RefineRet (F T : Type) where
  err : Option GoError
  data : GoMap GoString
  trans : Translate
  trace : List (Effect F T)

/-- The two `append`s that end `refine`. -/
def extend (trans : Translate) (f : Filter) : Translate :=
  { trans with VFields := trans.VFields ++ f.Good, TFields := trans.TFields ++ f.Tags }

/-- The function `refine`; `none` is a run-time panic. -/
def refine (lib : Lib F T) (data : GoMap GoString) (trans : Translate) (f : Filter) :
    Option (RefineRet F T) :=
  if (match f.Valid with
      | some valid => validMismatch data valid
      | none => false) then
    some ⟨some .ErrNoMatch, data, trans, []⟩
  else if 0 < f.Pattern.length then
    match lib.GrokParse f.Pattern (data.get f.Key) with
    | .error err => some ⟨some err, data, trans, [.grokParse f.Pattern (data.get f.Key)]⟩
    | .ok matched =>
      match storeCaptures data matched with
      | none => none
      | some stored =>
        some ⟨none, stored, extend trans f, [.grokParse f.Pattern (data.get f.Key)]⟩
  else
    some ⟨none, data, extend trans f, []⟩

/-- What the closure `process` of `Parse` returns and leaves behind: the error, the
maps `m` and `tags`, and the calls made. -/
structure ProcessRet (F T : Type) where
  err : Option GoError
  data : GoMap GoString
  tags : MapRef GoString
  trace : List (Effect F T)

/-- The loop `for _, filter := range filters` of `process` followed by the call of
`AddPoint`, from the state reached so far. A rule whose `refine` returns nil makes
`process` return that nil at once (`if err == nil { return err }`). -/
def processFrom (lib : Lib F T) (send : Sender F T) (tags : MapRef GoString) :
    GoMap GoString → Translate → List (Effect F T) → List Filter →
      Option (ProcessRet F T)
  | m, t, trace, [] =>
    match AddPoint lib m tags t send with
    | none => none
    | some r => some ⟨r.err, m, r.tags, trace ++ r.trace⟩
  | m, t, trace, filter :: filters =>
    match refine lib m t filter with
    | none => none
    | some r =>
      match r.err with
      | none => some ⟨none, r.data, tags, trace ++ r.trace⟩
      | some _ => processFrom lib send tags r.data r.trans (trace ++ r.trace) filters

/-- The closure `process` of `Parse`, run on the record `m` of one line (the `Debug`
printing apart); `none` is a run-time panic. The record is the map the matcher has
made for the line; `tags` is the argument of `Parse`, the nil map included. -/
def process (lib : Lib F T) (send : Sender F T) (trans : Translate)
    (filters : List Filter) (tags : MapRef GoString) (m : GoMap GoString) :
    Option (ProcessRet F T) :=
  processFrom lib send tags m trans [] filters

end Parse

/-! ## `influx.go` -/

/-- The constant `DefaultBatchSize`. -/
def DefaultBatchSize : Int := 64

/-- The constant `DefaultQueueSize`. -/
def DefaultQueueSize : Int := 8192

/-- The constant `DefaultPeriod`. -/
def DefaultPeriod : Int := 60

/-- The three settings of `NewSender` once its defaults are applied. -/
structure Settings where
  batchSize : Int
  queueSize : Int
  period : Int
  deriving DecidableEq, Repr

/-- The block `apply defaults as needed` of `NewSender`. -/
def applyDefaults (batchSize queueSize period : Int) : Settings :=
  let queueSize := if queueSize ≤ 0 then DefaultQueueSize else queueSize
  let batchSize := if batchSize ≤ 0 then DefaultBatchSize else batchSize
  let period := if period ≤ 0 then DefaultPeriod else period
  ⟨batchSize, queueSize, period⟩

/-- The state of the worker goroutine of `NewSender` while it waits in `select`:
the points of `bp` and the counter `count`. `P` stands for `*client.Point`. -/
structure Worker (P : Type) where
  bp : List P
  count : Int
  deriving DecidableEq, Repr

/-- The two cases of the worker's `select`. -/
inductive Event (P : Type) where
  | tick
  | point (p : P)
  deriving DecidableEq, Repr

/-- The state the worker starts in: an empty `bp` and `count := 0`. -/
def Worker.init {P : Type} : Worker P := ⟨[], 0⟩

/-- The inner loop `for { if err := conn.Write(bp); err != nil { continue } ... break }`
when `conn.Write` fails `fails` times and then succeeds: the batches passed to
`conn.Write`, call by call, and the state left (`bp` is a new empty batch, made by
the call of `client.NewBatchPoints` that succeeded before the worker started, and
`count = 0`). -/
def writeLoop {P : Type} (w : Worker P) : Nat → List (List P) × Worker P
  | 0 => ([w.bp], ⟨[], 0⟩)
  | fails + 1 => (w.bp :: (writeLoop w fails).1, (writeLoop w fails).2)

/-- One round of the worker's outer loop on the event `ev`: the batches passed to
`conn.Write` and the next waiting state. `fails` is the number of failed writes
before the successful one, should the round reach the write loop. The counter stays
below `batchSize`, so `count++` is the exact increment. -/
def step {P : Type} (batchSize : Int) (w : Worker P) (ev : Event P) (fails : Nat) :
    List (List P) × Worker P :=
  match ev with
  | .tick =>
    if w.bp.length = 0 then ([], w) else writeLoop w fails
  | .point p =>
    let w' : Worker P := ⟨w.bp ++ [p], w.count + 1⟩
    if w'.count < batchSize then ([], w') else writeLoop w' fails

/-- The worker's invariant at `select`: the counter is the number of points of the
batch and is below the threshold. -/
def Waiting {P : Type} (batchSize : Int) (w : Worker P) : Prop :=
  w.count = w.bp.length ∧ w.count < batchSize

instance {P : Type} (batchSize : Int) (w : Worker P) : Decidable (Waiting batchSize w) := by
  unfold Waiting
  infer_instance

/-- The inner loop `for { if err := conn.Write(bp); err != nil { continue } ... break }`
run against the results of the successive calls of `conn.Write` (`none` is a nil
error): the batches passed, call by call, and at `break` the state left together
with the results not used. The state is `none` while every listed call has failed
and the loop is still retrying. -/
def writeLoopOn {P : Type} (w : Worker P) :
    List (Option GoError) → List (List P) × Option (Worker P × List (Option GoError))
  | [] => ([], none)
  | none :: results => ([w.bp], some (⟨[], 0⟩, results))
  | some _ :: results => (w.bp :: (writeLoopOn w results).1, (writeLoopOn w results).2)

/-- The points an event takes from the channel `pts`. -/
def Event.points {P : Type} : Event P → List P
  | .tick => []
  | .point p => [p]

/-- The batch a round has written successfully: the write loop ends with its one
successful call, so it is the batch of the round's last call, if the round made one. -/
def flushed {P : Type} (writes : List (List P)) : List (List P) :=
  writes.getLast?.toList

/-- A run of the worker with what it has done so far: the waiting state, the batches
passed to `conn.Write` (every call), the batches of the calls that succeeded, and
the points taken from the channel, each in order. -/
structure Run (P : Type) where
  worker : Worker P
  calls : List (List P)
  written : List (List P)
  dequeued : List P
  deriving DecidableEq, Repr

/-- The run of a worker that has just started. -/
def Run.init {P : Type} : Run P := ⟨Worker.init, [], [], []⟩

/-- One more round: an event, with the number of failed writes before the successful
one should the round reach the write loop. -/
def Run.next {P : Type} (batchSize : Int) (r : Run P) (ev : Event P × Nat) : Run P :=
  ⟨(step batchSize r.worker ev.1 ev.2).2,
    r.calls ++ (step batchSize r.worker ev.1 ev.2).1,
    r.written ++ flushed (step batchSize r.worker ev.1 ev.2).1,
    r.dequeued ++ ev.1.points⟩

/-- The worker's outer loop `for { select { ... } ... }` over a sequence of events,
from its start. -/
def run {P : Type} (batchSize : Int) (events : List (Event P × Nat)) : Run P :=
  events.foldl (Run.next batchSize) Run.init

/-! ## A small library instance to evaluate the definitions on examples -/

/-- The number written by a string of ASCII digits, most significant first. -/
def digitsValue : GoString → Option Nat
  | [] => none
  | ds =>
    if ds.all (fun d => decide (48 ≤ d.toNat ∧ d.toNat ≤ 57)) then
      some (ds.foldl (fun n d => 10 * n + (d.toNat - 48)) 0)
    else none

/-- An executable instance of the libraries for the examples below. `float64` values
are the integers below `2^53`, timestamps are numbers. It covers only the inputs
the examples use, on which it agrees with the Go libraries: `ParseFloat` accepts a
string of ASCII digits whose number is below `2^53`, `ParseInt` such a string
without a leading zero; `time.Parse` reads a string of digits whatever the layout;
every other input is an error. The matcher is the one given. -/
def exampleLib (grok : GoString → GoString → Except GoError (GoMap GoString)) :
    Lib Int Nat where
  ParseFloat s :=
    match digitsValue s with
    | some n => if n < 2 ^ 53 then .ok n else .error (.ext 1)
    | none => .error (.ext 1)
  ParseInt s :=
    match digitsValue s with
    | some n => if n < 2 ^ 53 ∧ (s.head? ≠ some 48 ∨ s.length = 1) then .ok n else .error (.ext 2)
    | none => .error (.ext 2)
  TimeParse _ value :=
    match digitsValue value with
    | some n => .ok n
    | none => .error (.ext 3)
  Now := 0
  GrokParse := grok

/-- A `Sender` that accepts every point. -/
def acceptAll : Sender Int Nat := fun _ _ _ _ => none

/-- A matcher that finds no capture, whatever the pattern and the text. -/
def matchNothing : GoString → GoString → Except GoError (GoMap GoString) :=
  fun _ _ => .ok []

/-- A matcher that fails with an error of its own on every call. -/
def matchFails : GoString → GoString → Except GoError (GoMap GoString) :=
  fun _ _ => .error (.ext 7)

/-- A matcher that returns the given captures on every call. -/
def matchYields (captures : GoMap GoString) :
    GoString → GoString → Except GoError (GoMap GoString) :=
  fun _ _ => .ok captures

/-- The record of a line `info 42` matched by `%{WORD:level} %{NUMBER:value}`. -/
def lineRecord : GoMap GoString :=
  [(ascii "level", ascii "info"), (ascii "value", ascii "42")]

/-- A `Translate` with the key field `level`, the value field `value` and no
timestamp setting. -/
def lineTranslate : Translate :=
  ⟨ascii "LINE", ascii "level", [], [], [], [ascii "value"]⟩

/-- A rule with neither pattern nor validation: it only promotes the field `host`
to a tag and the field `bytes` to a value. -/
def promoteRule : Filter :=
  ⟨[], [], [ascii "bytes"], [ascii "host"], none⟩

/-- A rule that applies the secondary pattern `KV` to the field `value`. -/
def patternRule : Filter :=
  ⟨ascii "KV", ascii "value", [], [], none⟩

/-- A rule that requires `level` to be `error` before applying the pattern `KV`. -/
def errorOnlyRule : Filter :=
  ⟨ascii "KV", ascii "value", [ascii "bytes"], [ascii "host"],
    some [(ascii "level", ascii "error")]⟩

/-- The record `{a: "1"}`. -/
def smallRecord : GoMap GoString := [(ascii "a", ascii "1")]

/-- A rule that applies the secondary pattern `KV` to the field `a`. -/
def rematchRule : Filter :=
  ⟨ascii "KV", ascii "a", [], [], none⟩

/-- A `Translate` with the key field `level`, the tag field `host`, the value field
`value`, and the timestamp field `ts` read with the layout `2006`. -/
def stampedTranslate : Translate :=
  ⟨ascii "LINE", ascii "level", ascii "2006", ascii "ts", [ascii "host"], [ascii "value"]⟩

/-- A record with the fields `host`, `value` and a timestamp field `ts` that the
example library reads. -/
def stampedRecord : GoMap GoString :=
  [(ascii "host", ascii "b"), (ascii "value", ascii "42"), (ascii "ts", ascii "2016")]

/-- A record whose timestamp field `ts` the example library cannot read. -/
def unstampedRecord : GoMap GoString :=
  [(ascii "host", ascii "b"), (ascii "ts", ascii "soon")]

/-- Base tags of a caller: `host` and `dc`. -/
def baseTags : GoMap GoString :=
  [(ascii "host", ascii "a"), (ascii "dc", ascii "x")]

/-- The example library with an integer parse that also reads the hexadecimal
`0x10`, as `strconv.ParseInt` with base 0 does; the float parse rejects that string,
as `strconv.ParseFloat` does. -/
def hexLib : Lib Int Nat :=
  { exampleLib matchNothing with
    ParseInt := fun s =>
      if s = ascii "0x10" then .ok 16 else (exampleLib matchNothing).ParseInt s }

/-- A rule that requires `value` to be `0` and promotes nothing it is not asked to. -/
def zeroOnlyRule : Filter :=
  ⟨[], [], [ascii "bytes"], [], some [(ascii "value", ascii "0")]⟩

/-- A rule that applies the secondary pattern `KV` to the field `value` and promotes
`bytes` to a value and `host` to a tag. -/
def kvRule : Filter :=
  ⟨ascii "KV", ascii "value", [ascii "bytes"], [ascii "host"], none⟩

/-- Five worker events for a threshold of 2: two points (the second one flushes,
after one failed write), a timer on the empty batch, a third point and a timer that
flushes it. -/
def fiveEvents : List (Event Nat × Nat) :=
  [(.point 10, 0), (.point 20, 1), (.tick, 0), (.point 30, 0), (.tick, 2)]


/-! ## Maps: reading after writing -/

theorem GoMap.lookup_set {V : Type} (m : GoMap V) (k k' : GoString) (v : V) :
    (m.set k v).lookup k' = if k = k' then some v else m.lookup k' := by
  induction m with
  | nil => simp [GoMap.set, GoMap.lookup]
  | cons e m ih =>
    obtain ⟨k0, v0⟩ := e
    by_cases h0 : k0 = k
    · subst h0
      by_cases h1 : k0 = k' <;> simp [GoMap.set, GoMap.lookup, h1]
    · by_cases h1 : k0 = k'
      · subst h1
        have h2 : ¬ k = k0 := fun h => h0 h.symm
        simp [GoMap.set, GoMap.lookup, h0, h2]
      · simp [GoMap.set, GoMap.lookup, h0, h1, ih]

theorem GoMap.get_set (m : GoMap GoString) (k k' : GoString) (v : GoString) :
    GoMap.get (m.set k v) k' = if k = k' then v else GoMap.get m k' := by
  unfold GoMap.get
  rw [GoMap.lookup_set]
  split <;> rfl

/-! ## `process`: what the loop over the rules does -/

section ProcessLemmas

variable {F T : Type}

/-- The calls `refine` makes are calls of the matcher only. -/
theorem refine_trace_no_send (lib : Lib F T) (data : GoMap GoString) (trans : Translate)
    (f : Filter) (r : RefineRet F T) (h : refine lib data trans f = some r) :
    r.trace.filter Effect.isSend = [] := by
  unfold refine at h
  split at h
  · cases h; rfl
  · split at h
    · split at h
      · cases h; rfl
      · split at h
        · cases h
        · cases h; rfl
    · cases h; rfl

/-- A rule that applies successfully ends `process`: nil is returned at once and
`AddPoint` is not reached. -/
theorem processFrom_cons_ok (lib : Lib F T) (send : Sender F T)
    (tags : MapRef GoString) (m : GoMap GoString)
    (t : Translate) (trace : List (Effect F T)) (f : Filter) (fs : List Filter)
    (r : RefineRet F T) (h : refine lib m t f = some r) (hr : r.err = none) :
    processFrom lib send tags m t trace (f :: fs) =
      some ⟨none, r.data, tags, trace ++ r.trace⟩ := by
  simp [processFrom, h, hr]

/-- A rule whose `refine` returns an error is passed over: the loop goes on with
the next rule. -/
theorem processFrom_cons_err (lib : Lib F T) (send : Sender F T)
    (tags : MapRef GoString) (m : GoMap GoString)
    (t : Translate) (trace : List (Effect F T)) (f : Filter) (fs : List Filter)
    (r : RefineRet F T) (e : GoError) (h : refine lib m t f = some r)
    (hr : r.err = some e) :
    processFrom lib send tags m t trace (f :: fs) =
      processFrom lib send tags r.data r.trans (trace ++ r.trace) fs := by
  simp [processFrom, h, hr]

/-- Whenever the first rule applies successfully, `process` returns nil and the
`Sender` is not called, whatever the rules after it. -/
theorem process_first_rule_ok_no_send (lib : Lib F T) (send : Sender F T)
    (trans : Translate) (f : Filter) (fs : List Filter) (tags : MapRef GoString)
    (m : GoMap GoString)
    (r : RefineRet F T) (h : refine lib m trans f = some r) (hr : r.err = none) :
    ∃ p, process lib send trans (f :: fs) tags m = some p ∧ p.err = none ∧
      p.trace.filter Effect.isSend = [] := by
  refine ⟨⟨none, r.data, tags, [] ++ r.trace⟩, ?_, rfl, ?_⟩
  · exact processFrom_cons_ok lib send tags m trans [] f fs r h hr
  · simpa using refine_trace_no_send lib m trans f r h

/-- A single rule whose secondary pattern makes the matcher fail is passed over:
`process` goes on to `AddPoint` and returns what `AddPoint` returns. -/
theorem process_single_rule_matcher_error (lib : Lib F T) (send : Sender F T)
    (trans : Translate) (f : Filter) (tags : MapRef GoString) (m : GoMap GoString)
    (e : GoError) (hvalid : f.Valid = none) (hpat : 0 < f.Pattern.length)
    (hmatch : lib.GrokParse f.Pattern (m.get f.Key) = .error e) :
    process lib send trans [f] tags m =
      (AddPoint lib m tags trans send).map (fun a =>
        ⟨a.err, m, a.tags, [.grokParse f.Pattern (m.get f.Key)] ++ a.trace⟩) := by
  have hr : refine lib m trans f =
      some ⟨some e, m, trans, [.grokParse f.Pattern (m.get f.Key)]⟩ := by
    simp [refine, hvalid, hpat, hmatch]
  unfold process
  rw [processFrom_cons_err lib send tags m trans [] f [] _ e hr rfl]
  simp only [processFrom]
  cases AddPoint lib m tags trans send <;> rfl

end ProcessLemmas

/-! ## C1: a rule that applies successfully -/

/-- C1, evaluated on the code. With the one rule `promoteRule`, which applies
successfully, `process` returns nil without calling the `Sender` (its trace is
empty), where the claim has one call with the extended field lists; with no rule at
all the `Sender` is called once with the static lists. -/
theorem process_successful_rule_sends_nothing :
    (process (exampleLib matchNothing) acceptAll lineTranslate [promoteRule] (some [])
        lineRecord).map (fun r => (r.err, r.trace)) = some (none, []) ∧
    (process (exampleLib matchNothing) acceptAll lineTranslate [] (some [])
        lineRecord).map (fun r => (r.err, r.trace)) =
      some (none, [.timeNow,
        .send (ascii "info") (some []) [(ascii "value", .float 42)] 0]) := by
  decide

/-! ## C2: an error of the matcher -/

/-- C2, evaluated on the code. With the one rule `patternRule` and a matcher that
fails, `process` does not return the matcher's error: the loop passes over the rule,
`AddPoint` calls the `Sender`, and the `Sender`'s nil is returned. With a second rule
that applies successfully the error is dropped as well and nil is returned. -/
theorem process_matcher_error_swallowed :
    (process (exampleLib matchFails) acceptAll lineTranslate [patternRule] (some [])
        lineRecord).map (fun r => (r.err, r.trace)) =
      some (none, [.grokParse (ascii "KV") (ascii "42"), .timeNow,
        .send (ascii "info") (some []) [(ascii "value", .float 42)] 0]) ∧
    (process (exampleLib matchFails) acceptAll lineTranslate [patternRule, promoteRule] (some [])
        lineRecord).map (fun r => (r.err, r.trace)) =
      some (none, [.grokParse (ascii "KV") (ascii "42")]) := by
  decide

/-! ## C3: the three-way classification of `numerical` -/

section Numerical

variable {F T : Type}

/-- C3, counterexample. The digits-only string `42` parses as an integer and has
neither fractional part nor exponent, and `numerical` returns the float 42 for it,
not an integer. -/
theorem numerical_digits_is_float :
    (exampleLib matchNothing).ParseInt (ascii "42") = .ok 42 ∧
    numerical (exampleLib matchNothing) (ascii "42") = .float 42 ∧
    (numerical (exampleLib matchNothing) (ascii "42")).kind ≠ Kind.int :=
  ⟨rfl, by decide, by decide⟩

/-- C3, as amended. `numerical s` is classified three ways by the outcomes of the two
parses: a float when the float parse of `s` succeeds, whether or not `s` would also
parse as an integer; otherwise an integer when the integer parse succeeds; otherwise
the string `s` itself, unchanged. -/
theorem numerical_classified (lib : Lib F T) (s : GoString) :
    ((∃ f, lib.ParseFloat s = .ok f) → (numerical lib s).kind = Kind.float) ∧
    ((∃ e, lib.ParseFloat s = .error e) → (∃ i, lib.ParseInt s = .ok i) →
      (numerical lib s).kind = Kind.int) ∧
    ((∃ e, lib.ParseFloat s = .error e) → (∃ e, lib.ParseInt s = .error e) →
      numerical lib s = .str s) := by
  refine ⟨?_, ?_, ?_⟩
  · rintro ⟨f, hf⟩
    simp [numerical, hf, Value.kind]
  · rintro ⟨e, he⟩ ⟨i, hi⟩
    simp [numerical, he, hi, Value.kind]
  · rintro ⟨e, he⟩ ⟨e', hi⟩
    simp [numerical, he, hi]

end Numerical

/-! ## C4: a validation mismatch -/

section Validation

variable {F T : Type}

/-- C4. When the rule has a validation mapping `valid` and some listed field `k`,
required to be `v`, has another value in the record (`data[k]`, the empty string when
`k` is absent), `refine` returns `ErrNoMatch`, calls nothing (its trace is empty, so
the matcher is not invoked) and leaves the record and the `Translate` with its two
field lists as they were. -/
theorem refine_validation_mismatch (lib : Lib F T) (data : GoMap GoString)
    (trans : Translate) (f : Filter) (valid : GoMap GoString) (k v : GoString)
    (hvalid : f.Valid = some valid) (hlisted : (k, v) ∈ valid)
    (hdiff : data.get k ≠ v) :
    refine lib data trans f = some ⟨some GoError.ErrNoMatch, data, trans, []⟩ := by
  have hmis : validMismatch data valid = true := by
    unfold validMismatch
    rw [List.any_eq_true]
    exact ⟨(k, v), hlisted, by simpa using hdiff⟩
  simp [refine, hvalid, hmis]

/-- C4, witness: the record of `info 42` against the rule that requires
`level = error`, with a matcher that would return a capture if it were called. -/
theorem refine_validation_mismatch_witness :
    errorOnlyRule.Valid = some [(ascii "level", ascii "error")] ∧
    (ascii "level", ascii "error") ∈ [(ascii "level", ascii "error")] ∧
    GoMap.get lineRecord (ascii "level") ≠ ascii "error" ∧
    refine (exampleLib (matchYields [(ascii "level", ascii "error")])) lineRecord
        lineTranslate errorOnlyRule =
      some ⟨some GoError.ErrNoMatch, lineRecord, lineTranslate, []⟩ :=
  ⟨rfl, by decide, by decide,
    refine_validation_mismatch _ lineRecord lineTranslate errorOnlyRule
      [(ascii "level", ascii "error")] (ascii "level") (ascii "error") rfl
      (by decide) (by decide)⟩

end Validation

/-! ## C5 and C6: the captures of a secondary match -/

theorem GoMap.lookup_eq_none_of_not_mem_keys {V : Type} (m : GoMap V) (k : GoString)
    (h : k ∉ m.keys) : m.lookup k = none := by
  induction m with
  | nil => rfl
  | cons e m ih =>
    obtain ⟨k0, v0⟩ := e
    simp only [GoMap.keys, List.map_cons, List.mem_cons, not_or] at h
    have h0 : ¬ k0 = k := fun hk => h.1 hk.symm
    simp only [GoMap.lookup, h0, if_false]
    exact ih h.2

/-- The slice of the quote stripping is out of range for the lone quote, and for
no other value. -/
theorem stripQuotes_eq_none_iff (v : GoString) : stripQuotes v = none ↔ v = [quote] := by
  constructor
  · intro h
    unfold stripQuotes slice at h
    split at h
    · rename_i hq
      split at h
      · cases h
      · rename_i hb
        match v, hq with
        | [], hq => simp at hq
        | [c], hq => simpa using hq.2
        | c :: d :: rest, _ => exact absurd ⟨by simp, by simp⟩ hb
    · cases h
  · rintro rfl
    decide

/-- A value wrapped in a leading and a trailing quote is stripped to what stands
between them. -/
theorem stripQuotes_wrapped (s : GoString) :
    stripQuotes (quote :: (s ++ [quote])) = some s := by
  have hb : 1 ≤ (quote :: (s ++ [quote])).length - 1 ∧
      (quote :: (s ++ [quote])).length - 1 ≤ (quote :: (s ++ [quote])).length := by
    simp
  have ht : ((quote :: (s ++ [quote])).take ((quote :: (s ++ [quote])).length - 1)).drop 1
      = s := by
    simp [List.take_append_eq_append_take]
  have hq : 0 < (quote :: (s ++ [quote])).length ∧
      (quote :: (s ++ [quote])).head? = some quote := ⟨by simp, rfl⟩
  unfold stripQuotes slice
  rw [if_pos hq, if_pos hb, ht]

/-- After the loop over the captures has run through, the record maps each key of
the match result to its stripped value and keeps every other key as it was. -/
theorem storeCaptures_lookup (matched : GoMap GoString) :
    ∀ (data stored : GoMap GoString), matched.keys.Nodup →
      storeCaptures data matched = some stored →
      ∀ k, stored.lookup k =
        match matched.lookup k with
        | some v => stripQuotes v
        | none => data.lookup k := by
  induction matched with
  | nil =>
    intro data stored _ h k
    simp only [storeCaptures, Option.some.injEq] at h
    subst h
    rfl
  | cons e matched ih =>
    obtain ⟨k0, v0⟩ := e
    intro data stored hkeys h k
    simp only [GoMap.keys, List.map_cons, List.nodup_cons] at hkeys
    simp only [storeCaptures, storeCapture] at h
    cases hs : stripQuotes v0 with
    | none => simp [hs] at h
    | some v1 =>
      simp only [hs, Option.map_some', Option.some_bind] at h
      have hrec := ih (data.set k0 v1) stored hkeys.2 h k
      by_cases hk : k0 = k
      · subst hk
        have hnone : GoMap.lookup matched k0 = none :=
          GoMap.lookup_eq_none_of_not_mem_keys matched k0 hkeys.1
        rw [hrec, hnone]
        simp [GoMap.lookup, GoMap.lookup_set, hs]
      · rw [hrec]
        simp [GoMap.lookup, GoMap.lookup_set, hk]

/-- The loop over the captures panics exactly when some capture is the lone quote. -/
theorem storeCaptures_eq_none_iff (matched : GoMap GoString) :
    ∀ data : GoMap GoString,
      storeCaptures data matched = none ↔ ∃ kv ∈ matched, kv.2 = [quote] := by
  induction matched with
  | nil => intro data; simp [storeCaptures]
  | cons e matched ih =>
    intro data
    simp only [storeCaptures, storeCapture, List.mem_cons, exists_eq_or_imp]
    cases hs : stripQuotes e.2 with
    | none =>
      have := (stripQuotes_eq_none_iff e.2).mp hs
      simp [this]
    | some v1 =>
      have hne : ¬ e.2 = [quote] := fun h => by
        rw [(stripQuotes_eq_none_iff e.2).mpr h] at hs
        cases hs
      simp only [Option.map_some', Option.some_bind, hne, false_or]
      exact ih _

/-- C5, evaluated on the code. On the claim's own example, record `{a: "1"}` and
match result `{a: "2"}`, `refine` leaves `a = "2"`. On the match result whose value
for `a` is the lone quote character, the slice `v[1 : len(v)-1]` is out of range and
`refine` panics: no record is left that maps `a` to a stripped value. -/
theorem refine_lone_quote_panics :
    (refine (exampleLib (matchYields [(ascii "a", ascii "2")])) smallRecord lineTranslate
        rematchRule).map (fun r => (r.err, r.data)) =
      some (none, [(ascii "a", ascii "2")]) ∧
    (refine (exampleLib (matchYields [(ascii "a", ascii "\"")])) smallRecord lineTranslate
        rematchRule).map (fun r => (r.err, r.data)) = none := by
  decide

section Captures

variable {F T : Type}

/-- C6. A capture whose value is `s` between one leading and one trailing quote is
stored as exactly `s`, whatever quotes `s` itself holds: the stripping yields `s`,
the round of the loop assigns `s` to the capture's key, the record then reads `s`
there, and `refine` on a match result made of this capture leaves that record. -/
theorem storeCapture_quoted (data : GoMap GoString) (k s : GoString) :
    stripQuotes (quote :: (s ++ [quote])) = some s ∧
    storeCapture data (k, quote :: (s ++ [quote])) = some (data.set k s) ∧
    (data.set k s).lookup k = some s ∧
    ∀ (lib : Lib F T) (trans : Translate) (f : Filter),
      f.Valid = none → 0 < f.Pattern.length →
      lib.GrokParse f.Pattern (data.get f.Key) = .ok [(k, quote :: (s ++ [quote]))] →
      refine lib data trans f =
        some ⟨none, data.set k s, extend trans f,
          [.grokParse f.Pattern (data.get f.Key)]⟩ := by
  have hs := stripQuotes_wrapped s
  have hc : storeCapture data (k, quote :: (s ++ [quote])) = some (data.set k s) := by
    simp [storeCapture, hs]
  refine ⟨hs, hc, by simp [GoMap.lookup_set], ?_⟩
  intro lib trans f hvalid hpat hmatch
  simp [refine, hvalid, hpat, hmatch, storeCaptures, hc]

end Captures

/-- C6, witness: the capture `"abc"` is stored as `abc`, and the capture `"a"b"`
keeps its inner quote. -/
theorem storeCapture_quoted_witness :
    storeCapture smallRecord (ascii "a", ascii "\"abc\"") =
      some [(ascii "a", ascii "abc")] ∧
    storeCapture smallRecord (ascii "a", ascii "\"a\"b\"") =
      some [(ascii "a", ascii "a\"b")] :=
  ⟨(storeCapture_quoted (F := Int) (T := Nat) smallRecord (ascii "a") (ascii "abc")).2.1,
    (storeCapture_quoted (F := Int) (T := Nat) smallRecord (ascii "a") (ascii "a\"b")).2.1⟩

/-! ## C7, C8, C9: `AddPoint` -/

section AddPointLemmas

variable {F T : Type}

/-- The loop over the tag fields: a name of the list reads the record's value, every
other name reads what the base tags hold. -/
theorem pointTags_lookup (m : GoMap GoString) (tfields : List GoString) :
    ∀ (tags : GoMap GoString) (name : GoString),
      (pointTags m tags tfields).lookup name =
        if name ∈ tfields then some (m.get name) else tags.lookup name := by
  induction tfields with
  | nil => intro tags name; simp [pointTags]
  | cons tag rest ih =>
    intro tags name
    have hstep : pointTags m tags (tag :: rest) = pointTags m (tags.set tag (m.get tag)) rest :=
      rfl
    rw [hstep, ih, GoMap.lookup_set]
    by_cases h1 : name ∈ rest
    · simp [h1]
    · by_cases h2 : tag = name
      · subst h2; simp
      · have h3 : ¬ name = tag := fun h => h2 h.symm
        simp [h1, h2, h3]

/-- On a map that has been allocated the loop over the tag fields never panics. -/
theorem tagLoop_some (m : GoMap GoString) (tfields : List GoString) :
    ∀ tg : GoMap GoString,
      tagLoop m (some tg) tfields = some (some (pointTags m tg tfields)) := by
  induction tfields with
  | nil => intro tg; rfl
  | cons tag rest ih =>
    intro tg
    have hstep : tagLoop m (some tg) (tag :: rest) =
        tagLoop m (some (tg.set tag (m.get tag))) rest := rfl
    rw [hstep, ih]
    rfl

/-- On the nil map the loop over the tag fields panics at its first round, and does
nothing when there is no tag field. -/
theorem tagLoop_nil (m : GoMap GoString) (tfields : List GoString) :
    tagLoop m none tfields = if tfields = [] then some none else none := by
  cases tfields <;> rfl

/-- The loop over the tag fields panics exactly on the nil map with a tag field. -/
theorem tagLoop_eq_none_iff (m : GoMap GoString) (tags : MapRef GoString)
    (tfields : List GoString) :
    tagLoop m tags tfields = none ↔ tags = none ∧ tfields ≠ [] := by
  cases tags with
  | none =>
    rw [tagLoop_nil]
    by_cases h : tfields = [] <;> simp [h]
  | some tg => simp [tagLoop_some]

/-- When the loop over the tag fields runs through, the `tags` it leaves read the
record's value at every name of the list and what the base tags hold elsewhere. -/
theorem tagLoop_lookup (m : GoMap GoString) (tags done : MapRef GoString)
    (tfields : List GoString) (h : tagLoop m tags tfields = some done)
    (name : GoString) :
    MapRef.lookup done name =
      if name ∈ tfields then some (m.get name) else MapRef.lookup tags name := by
  cases tags with
  | none =>
    rw [tagLoop_nil] at h
    by_cases hl : tfields = []
    · subst hl
      simp only [if_true, Option.some.injEq] at h
      subst h
      simp
    · simp [hl] at h
  | some tg =>
    rw [tagLoop_some, Option.some.injEq] at h
    subst h
    exact pointTags_lookup m tfields tg name

/-- The value `found` of `AddPoint`, in one expression. -/
theorem pointKey_eq (m : GoMap GoString) (t : Translate) :
    pointKey m t = (m.lookup t.Key).getD t.Key := by
  unfold pointKey
  cases m.lookup t.Key <;> rfl

/-- The one panic of `AddPoint` is the assignment to a nil `tags`. -/
theorem AddPoint_eq_none_iff (lib : Lib F T) (m : GoMap GoString) (tags : MapRef GoString)
    (t : Translate) (send : Sender F T) :
    AddPoint lib m tags t send = none ↔ tags = none ∧ t.TFields ≠ [] := by
  rw [← tagLoop_eq_none_iff m tags t.TFields]
  unfold AddPoint
  cases tagLoop m tags t.TFields with
  | none => simp
  | some done =>
    simp only [false_iff]
    split
    · split <;> simp
    · simp

/-- `AddPoint` when the tag loop runs through and `time.Parse` fails. -/
theorem AddPoint_parse_error (lib : Lib F T) (m : GoMap GoString)
    (tags done : MapRef GoString) (t : Translate) (send : Sender F T) (e : GoError)
    (hloop : tagLoop m tags t.TFields = some done)
    (hcfg : 0 < t.TSLayout.length ∧ 0 < t.TSField.length)
    (hparse : lib.TimeParse t.TSLayout (m.get t.TSField) = .error e) :
    AddPoint lib m tags t send =
      some ⟨some e, done, [.timeParse t.TSLayout (m.get t.TSField)]⟩ := by
  simp only [AddPoint, hloop, hcfg, and_self, if_true, hparse]

/-- `AddPoint` when the tag loop runs through and `time.Parse` succeeds. -/
theorem AddPoint_parse_ok (lib : Lib F T) (m : GoMap GoString)
    (tags done : MapRef GoString) (t : Translate) (send : Sender F T) (ts : T)
    (hloop : tagLoop m tags t.TFields = some done)
    (hcfg : 0 < t.TSLayout.length ∧ 0 < t.TSField.length)
    (hparse : lib.TimeParse t.TSLayout (m.get t.TSField) = .ok ts) :
    AddPoint lib m tags t send =
      some ⟨send (pointKey m t) done (pointFields lib m t.VFields) ts, done,
        [.timeParse t.TSLayout (m.get t.TSField),
          .send (pointKey m t) done (pointFields lib m t.VFields) ts]⟩ := by
  simp only [AddPoint, hloop, hcfg, and_self, if_true, hparse]

/-- `AddPoint` when the tag loop runs through and no timestamp is to be read. -/
theorem AddPoint_now (lib : Lib F T) (m : GoMap GoString)
    (tags done : MapRef GoString) (t : Translate) (send : Sender F T)
    (hloop : tagLoop m tags t.TFields = some done)
    (hcfg : ¬ (0 < t.TSLayout.length ∧ 0 < t.TSField.length)) :
    AddPoint lib m tags t send =
      some ⟨send (pointKey m t) done (pointFields lib m t.VFields) lib.Now, done,
        [.timeNow, .send (pointKey m t) done (pointFields lib m t.VFields) lib.Now]⟩ := by
  simp only [AddPoint, hloop, if_neg hcfg]

/-- The calls of `AddPoint` when it returns, case by case. -/
theorem AddPoint_trace (lib : Lib F T) (m : GoMap GoString) (tags : MapRef GoString)
    (t : Translate) (send : Sender F T) (r : AddPointRet F T)
    (h : AddPoint lib m tags t send = some r) :
    ∃ done, tagLoop m tags t.TFields = some done ∧ r.tags = done ∧
      r.trace =
        if 0 < t.TSLayout.length ∧ 0 < t.TSField.length then
          match lib.TimeParse t.TSLayout (m.get t.TSField) with
          | .error _ => [.timeParse t.TSLayout (m.get t.TSField)]
          | .ok ts =>
            [.timeParse t.TSLayout (m.get t.TSField),
              .send (pointKey m t) done (pointFields lib m t.VFields) ts]
        else
          [.timeNow, .send (pointKey m t) done (pointFields lib m t.VFields) lib.Now] := by
  cases hloop : tagLoop m tags t.TFields with
  | none =>
    have hnone : AddPoint lib m tags t send = none := by
      simp only [AddPoint, hloop]
    rw [hnone] at h
    cases h
  | some done =>
    refine ⟨done, rfl, ?_⟩
    by_cases hcfg : 0 < t.TSLayout.length ∧ 0 < t.TSField.length
    · cases hparse : lib.TimeParse t.TSLayout (m.get t.TSField) with
      | error e =>
        rw [AddPoint_parse_error lib m tags done t send e hloop hcfg hparse] at h
        cases h
        simp [hcfg]
      | ok ts =>
        rw [AddPoint_parse_ok lib m tags done t send ts hloop hcfg hparse] at h
        cases h
        simp [hcfg]
    · rw [AddPoint_now lib m tags done t send hloop hcfg] at h
      cases h
      simp [hcfg]

/-- Every call of the `Sender` made by `AddPoint` has the key `found`, the tags the
loop over the tag fields has left and the fields built from the value fields. -/
theorem AddPoint_send_args (lib : Lib F T) (m : GoMap GoString) (tags : MapRef GoString)
    (t : Translate) (send : Sender F T) (r : AddPointRet F T) (key : GoString)
    (tg : MapRef GoString) (f : GoMap (Value F)) (ts : T)
    (hret : AddPoint lib m tags t send = some r)
    (h : Effect.send key tg f ts ∈ r.trace) :
    key = pointKey m t ∧ tagLoop m tags t.TFields = some tg ∧
      f = pointFields lib m t.VFields := by
  obtain ⟨done, hloop, _, htrace⟩ := AddPoint_trace lib m tags t send r hret
  rw [htrace] at h
  split at h
  · split at h
    · simp at h
    · simp at h
      obtain ⟨h1, h2, h3, _⟩ := h
      exact ⟨h1, by rw [hloop, h2], h3⟩
  · simp at h
    obtain ⟨h1, h2, h3, _⟩ := h
    exact ⟨h1, by rw [hloop, h2], h3⟩

/-- The calls of `AddPoint` are no calls of the matcher. -/
theorem AddPoint_trace_no_grokParse (lib : Lib F T) (m : GoMap GoString)
    (tags : MapRef GoString) (t : Translate) (send : Sender F T) (r : AddPointRet F T)
    (h : AddPoint lib m tags t send = some r) :
    r.trace.filter Effect.isGrokParse = [] := by
  obtain ⟨done, _, _, htrace⟩ := AddPoint_trace lib m tags t send r h
  rw [htrace]
  split
  · split <;> rfl
  · rfl

end AddPointLemmas

section AddPointClaims

variable {F T : Type}

/-- C7. The key of every call of the `Sender` made by `AddPoint` is `m[t.Key]` when
`t.Key` is a key of `m` (whatever the stored value, the empty string included) and
the string `t.Key` itself otherwise. A missing key is no failure of `AddPoint`:
`AddPoint` panics exactly when `tags` is nil and there is a tag field, whatever the
key; any error it returns is the error of `time.Parse` or the error the `Sender`
returned for that key; and with no timestamp setting, where the tag loop does not
panic, the `Sender` is called exactly once with that key and its result is what
`AddPoint` returns. -/
theorem AddPoint_key (lib : Lib F T) (m : GoMap GoString) (tags : MapRef GoString)
    (t : Translate) (send : Sender F T) :
    (∀ r, AddPoint lib m tags t send = some r →
      ∀ key tg f ts, Effect.send key tg f ts ∈ r.trace →
        key = match m.lookup t.Key with
              | some found => found
              | none => t.Key) ∧
    (AddPoint lib m tags t send = none ↔ tags = none ∧ t.TFields ≠ []) ∧
    (∀ r e, AddPoint lib m tags t send = some r → r.err = some e →
      lib.TimeParse t.TSLayout (m.get t.TSField) = .error e ∨
      ∃ tg f ts, send ((m.lookup t.Key).getD t.Key) tg f ts = some e) ∧
    (¬ (0 < t.TSLayout.length ∧ 0 < t.TSField.length) →
      (tags ≠ none ∨ t.TFields = []) →
      ∃ tg f ts, AddPoint lib m tags t send =
        some ⟨send ((m.lookup t.Key).getD t.Key) tg f ts, tg,
          [.timeNow, .send ((m.lookup t.Key).getD t.Key) tg f ts]⟩) := by
  have hkey := pointKey_eq m t
  refine ⟨?_, AddPoint_eq_none_iff lib m tags t send, ?_, ?_⟩
  · intro r hret key tg f ts h
    rw [(AddPoint_send_args lib m tags t send r key tg f ts hret h).1]
    rfl
  · intro r e hret he
    rw [← hkey]
    cases hloop : tagLoop m tags t.TFields with
    | none =>
      have hnone : AddPoint lib m tags t send = none := by
        simp only [AddPoint, hloop]
      rw [hnone] at hret
      cases hret
    | some done =>
      by_cases hcfg : 0 < t.TSLayout.length ∧ 0 < t.TSField.length
      · cases hparse : lib.TimeParse t.TSLayout (m.get t.TSField) with
        | error e' =>
          rw [AddPoint_parse_error lib m tags done t send e' hloop hcfg hparse] at hret
          cases hret
          simp only [Option.some.injEq] at he
          subst he
          exact Or.inl rfl
        | ok ts =>
          rw [AddPoint_parse_ok lib m tags done t send ts hloop hcfg hparse] at hret
          cases hret
          exact Or.inr ⟨_, _, _, he⟩
      · rw [AddPoint_now lib m tags done t send hloop hcfg] at hret
        cases hret
        exact Or.inr ⟨_, _, _, he⟩
  · intro hcfg htags
    cases hloop : tagLoop m tags t.TFields with
    | none =>
      obtain ⟨h1, h2⟩ := (tagLoop_eq_none_iff m tags t.TFields).mp hloop
      rcases htags with h | h
      · exact absurd h1 h
      · exact absurd h h2
    | some done =>
      refine ⟨done, pointFields lib m t.VFields, lib.Now, ?_⟩
      rw [AddPoint_now lib m tags done t send hloop hcfg, hkey]

/-- C8. Whatever base tags the caller passes, the nil map included: the tag mapping
of every call of the `Sender` made by `AddPoint` maps each name of the tag-field
list to `m[name]` (the empty string when `m` has no such key), also where the base
tags hold that name, and reads every other name as the base tags do: where they
have no entry it has none. -/
theorem AddPoint_tags (lib : Lib F T) (m : GoMap GoString) (tags : MapRef GoString)
    (t : Translate) (send : Sender F T) (r : AddPointRet F T) (key : GoString)
    (tg : MapRef GoString) (f : GoMap (Value F)) (ts : T) (name : GoString)
    (hret : AddPoint lib m tags t send = some r)
    (hsent : Effect.send key tg f ts ∈ r.trace) :
    MapRef.lookup tg name =
      if name ∈ t.TFields then some (m.get name) else MapRef.lookup tags name :=
  tagLoop_lookup m tags tg t.TFields
    (AddPoint_send_args lib m tags t send r key tg f ts hret hsent).2.1 name

/-- C9, as amended. Where the tag loop does not panic (`tags` is not nil, or there is
no tag field) and both a timestamp field and a layout are set: when `time.Parse`
fails, `AddPoint` returns its error and makes no call of the `Sender`; when it
succeeds, the `Sender` is called exactly once, with the parsed time, and its result
is returned. With either setting empty, `AddPoint` returns and `time.Parse` is never
called. -/
theorem AddPoint_timestamp (lib : Lib F T) (m : GoMap GoString) (tags : MapRef GoString)
    (t : Translate) (send : Sender F T) (htags : tags ≠ none ∨ t.TFields = []) :
    (0 < t.TSLayout.length ∧ 0 < t.TSField.length →
      (∀ e, lib.TimeParse t.TSLayout (m.get t.TSField) = .error e →
        ∃ r, AddPoint lib m tags t send = some r ∧ r.err = some e ∧
          r.trace.filter Effect.isSend = []) ∧
      (∀ ts, lib.TimeParse t.TSLayout (m.get t.TSField) = .ok ts →
        ∃ r key tg f, AddPoint lib m tags t send = some r ∧
          r.trace.filter Effect.isSend = [.send key tg f ts] ∧
          r.err = send key tg f ts)) ∧
    (¬ (0 < t.TSLayout.length ∧ 0 < t.TSField.length) →
      ∃ r, AddPoint lib m tags t send = some r ∧
        r.trace.filter Effect.isTimeParse = []) := by
  obtain ⟨done, hloop⟩ : ∃ done, tagLoop m tags t.TFields = some done := by
    cases hloop : tagLoop m tags t.TFields with
    | none =>
      obtain ⟨h1, h2⟩ := (tagLoop_eq_none_iff m tags t.TFields).mp hloop
      rcases htags with h | h
      · exact absurd h1 h
      · exact absurd h h2
    | some done => exact ⟨done, rfl⟩
  refine ⟨fun hcfg => ⟨?_, ?_⟩, ?_⟩
  · intro e he
    exact ⟨_, AddPoint_parse_error lib m tags done t send e hloop hcfg he, rfl, rfl⟩
  · intro ts hts
    exact ⟨_, _, _, _, AddPoint_parse_ok lib m tags done t send ts hloop hcfg hts, rfl, rfl⟩
  · intro hcfg
    exact ⟨_, AddPoint_now lib m tags done t send hloop hcfg, rfl⟩

end AddPointClaims

/-- C7, witness: a record that holds `level` as the empty string gives the empty
key; a record without `level` gives the key `level`, also with nil `tags`; and nil
`tags` with a tag field is a panic whether the key is there or not. -/
theorem AddPoint_key_witness :
    (AddPoint (exampleLib matchNothing) [(ascii "level", [])] (some []) lineTranslate
        acceptAll).map (fun r => r.trace.filter Effect.isSend) =
      some [.send [] (some []) [(ascii "value", .str [])] 0] ∧
    (∃ tg f ts, AddPoint (exampleLib matchNothing) smallRecord none lineTranslate
        acceptAll =
      some ⟨acceptAll ((GoMap.lookup smallRecord lineTranslate.Key).getD lineTranslate.Key)
          tg f ts, tg,
        [.timeNow,
          .send ((GoMap.lookup smallRecord lineTranslate.Key).getD lineTranslate.Key)
            tg f ts]⟩) ∧
    (GoMap.lookup smallRecord lineTranslate.Key).getD lineTranslate.Key = ascii "level" ∧
    (AddPoint (exampleLib matchNothing) stampedRecord none stampedTranslate acceptAll =
        none ↔ (none : MapRef GoString) = none ∧ stampedTranslate.TFields ≠ []) :=
  ⟨by decide,
    (AddPoint_key (exampleLib matchNothing) smallRecord none lineTranslate
      acceptAll).2.2.2 (by decide) (Or.inr rfl),
    by decide,
    (AddPoint_key (exampleLib matchNothing) stampedRecord none stampedTranslate
      acceptAll).2.1⟩

/-- C8, witness: the base tags `{host: a, dc: x}` and the tag field `host`, which the
record holds as `b`: the `Sender` gets `{host: b, dc: x}`, and no entry for `level`. -/
theorem AddPoint_tags_witness :
    AddPoint (exampleLib matchNothing) stampedRecord (some baseTags) stampedTranslate
        acceptAll =
      some ⟨none, some [(ascii "host", ascii "b"), (ascii "dc", ascii "x")],
        [.timeParse (ascii "2006") (ascii "2016"),
          .send (ascii "level") (some [(ascii "host", ascii "b"), (ascii "dc", ascii "x")])
            [(ascii "value", Value.float 42)] 2016]⟩ ∧
    MapRef.lookup (some [(ascii "host", ascii "b"), (ascii "dc", ascii "x")])
        (ascii "host") =
      (if ascii "host" ∈ stampedTranslate.TFields then
        some (GoMap.get stampedRecord (ascii "host"))
      else MapRef.lookup (some baseTags) (ascii "host")) ∧
    MapRef.lookup (some [(ascii "host", ascii "b"), (ascii "dc", ascii "x")])
        (ascii "level") =
      (if ascii "level" ∈ stampedTranslate.TFields then
        some (GoMap.get stampedRecord (ascii "level"))
      else MapRef.lookup (some baseTags) (ascii "level")) :=
  have hret : AddPoint (exampleLib matchNothing) stampedRecord (some baseTags)
      stampedTranslate acceptAll =
      some ⟨none, some [(ascii "host", ascii "b"), (ascii "dc", ascii "x")],
        [.timeParse (ascii "2006") (ascii "2016"),
          .send (ascii "level") (some [(ascii "host", ascii "b"), (ascii "dc", ascii "x")])
            [(ascii "value", Value.float 42)] 2016]⟩ := rfl
  ⟨hret,
    AddPoint_tags (exampleLib matchNothing) stampedRecord (some baseTags) stampedTranslate
      acceptAll _ (ascii "level") (some [(ascii "host", ascii "b"), (ascii "dc", ascii "x")])
      [(ascii "value", Value.float 42)] 2016 (ascii "host") hret (by decide),
    AddPoint_tags (exampleLib matchNothing) stampedRecord (some baseTags) stampedTranslate
      acceptAll _ (ascii "level") (some [(ascii "host", ascii "b"), (ascii "dc", ascii "x")])
      [(ascii "value", Value.float 42)] 2016 (ascii "level") hret (by decide)⟩

/-- C9, counterexample. With nil `tags`, the tag field `host`, both timestamp
settings and a timestamp `soon` that `time.Parse` rejects, `AddPoint` does not
return the error of `time.Parse`: it returns nothing, the assignment
`tags[tag] = m[tag]` having panicked before `time.Parse` is reached. -/
theorem AddPoint_nil_tags_panics_before_parse :
    (0 < stampedTranslate.TSLayout.length ∧ 0 < stampedTranslate.TSField.length) ∧
    ((exampleLib matchNothing).TimeParse stampedTranslate.TSLayout
        (GoMap.get unstampedRecord stampedTranslate.TSField)).toOption = none ∧
    (AddPoint (exampleLib matchNothing) unstampedRecord none stampedTranslate
        acceptAll).map (fun r => r.err) = none ∧
    (AddPoint (exampleLib matchNothing) unstampedRecord (some baseTags) stampedTranslate
        acceptAll).map (fun r => r.err) = some (some (GoError.ext 3)) := by
  decide

/-- C9, witness: with allocated `tags`, the timestamp `soon` is not read and
`AddPoint` returns the error of `time.Parse` without a call of the `Sender`; the
timestamp `2016` is read and is the time of the one call; without a timestamp
setting `time.Parse` is not called. -/
theorem AddPoint_timestamp_witness :
    ((some baseTags : MapRef GoString) ≠ none ∨ stampedTranslate.TFields = []) ∧
    (∃ r, AddPoint (exampleLib matchNothing) unstampedRecord (some baseTags)
        stampedTranslate acceptAll = some r ∧ r.err = some (GoError.ext 3) ∧
      r.trace.filter Effect.isSend = []) ∧
    (∃ r key tg f, AddPoint (exampleLib matchNothing) stampedRecord (some baseTags)
        stampedTranslate acceptAll = some r ∧
      r.trace.filter Effect.isSend = [.send key tg f 2016] ∧
      r.err = acceptAll key tg f 2016) ∧
    (∃ r, AddPoint (exampleLib matchNothing) stampedRecord (some baseTags) lineTranslate
        acceptAll = some r ∧ r.trace.filter Effect.isTimeParse = []) :=
  ⟨Or.inl (by decide),
    ((AddPoint_timestamp (exampleLib matchNothing) unstampedRecord (some baseTags)
      stampedTranslate acceptAll (Or.inl (by decide))).1 (by decide)).1 (GoError.ext 3) rfl,
    ((AddPoint_timestamp (exampleLib matchNothing) stampedRecord (some baseTags)
      stampedTranslate acceptAll (Or.inl (by decide))).1 (by decide)).2 2016 rfl,
    (AddPoint_timestamp (exampleLib matchNothing) stampedRecord (some baseTags)
      lineTranslate acceptAll (Or.inl (by decide))).2 (by decide)⟩

/-! ## C10: one round of the flush worker -/

section WorkerLemmas

variable {P : Type}

/-- The write loop passes the same batch to `conn.Write` once per failure and once
more for the success. -/
theorem writeLoop_writes (w : Worker P) (fails : Nat) :
    (writeLoop w fails).1 = List.replicate (fails + 1) w.bp := by
  induction fails with
  | zero => rfl
  | succ n ih => simp only [writeLoop, ih, List.replicate_succ]

/-- The write loop leaves an empty batch and a counter of zero. -/
theorem writeLoop_state (w : Worker P) (fails : Nat) :
    (writeLoop w fails).2 = ⟨[], 0⟩ := by
  induction fails with
  | zero => rfl
  | succ n ih => simp only [writeLoop, ih]

/-- The round on the timer. -/
theorem step_tick (batchSize : Int) (w : Worker P) (fails : Nat) :
    step batchSize w .tick fails =
      if w.bp.length = 0 then ([], w) else writeLoop w fails := rfl

/-- The round on a point. -/
theorem step_point (batchSize : Int) (w : Worker P) (p : P) (fails : Nat) :
    step batchSize w (.point p) fails =
      if w.count + 1 < batchSize then ([], ⟨w.bp ++ [p], w.count + 1⟩)
      else writeLoop ⟨w.bp ++ [p], w.count + 1⟩ fails := rfl

/-- The worker starts in a state that meets the invariant, for a positive threshold. -/
theorem waiting_init (batchSize : Int) (h : 0 < batchSize) :
    Waiting batchSize (Worker.init : Worker P) := by
  exact ⟨rfl, h⟩

/-- Every round of the worker keeps the invariant, for a positive threshold. -/
theorem waiting_step (batchSize : Int) (h : 0 < batchSize) (w : Worker P) (ev : Event P)
    (fails : Nat) (hw : Waiting batchSize w) :
    Waiting batchSize (step batchSize w ev fails).2 := by
  cases ev with
  | tick =>
    rw [step_tick]
    split
    · exact hw
    · rw [writeLoop_state]; exact ⟨rfl, h⟩
  | point p =>
    rw [step_point]
    split
    · rename_i hlt
      refine ⟨?_, hlt⟩
      simp only [List.length_append, List.length_singleton, Nat.cast_add, Nat.cast_one]
      rw [hw.1]
    · rw [writeLoop_state]; exact ⟨rfl, h⟩

/-- The threshold `NewSender` hands to the worker is positive. -/
theorem applyDefaults_batchSize_pos (batchSize queueSize period : Int) :
    0 < (applyDefaults batchSize queueSize period).batchSize := by
  unfold applyDefaults DefaultBatchSize
  simp only
  split <;> omega

end WorkerLemmas

section WorkerClaims

variable {P : Type}

/-- C10. In a waiting state of the worker (the counter is the size of the batch and
is below the threshold), one round writes exactly when (a) the event is a point that
brings the size of the batch to the threshold, or (b) the event is the timer and the
batch is not empty; each write is of the current batch (with the new point, in case
a). The timer on an empty batch writes nothing and leaves the state as it was, and a
point that leaves the size below the threshold is appended and nothing is written. -/
theorem step_writes_iff (batchSize : Int) (w : Worker P) (fails : Nat)
    (hw : Waiting batchSize w) :
    (∀ p, (step batchSize w (.point p) fails).1 ≠ [] ↔
      ((w.bp ++ [p]).length : Int) = batchSize) ∧
    ((step batchSize w .tick fails).1 ≠ [] ↔ w.bp ≠ []) ∧
    (∀ p, ∀ b ∈ (step batchSize w (.point p) fails).1, b = w.bp ++ [p]) ∧
    (∀ b ∈ (step batchSize w .tick fails).1, b = w.bp) ∧
    (w.bp = [] → step batchSize w .tick fails = ([], w)) ∧
    (∀ p, ((w.bp ++ [p]).length : Int) < batchSize →
      step batchSize w (.point p) fails = ([], ⟨w.bp ++ [p], w.count + 1⟩)) := by
  obtain ⟨hcount, hlt⟩ := hw
  have hlen : ∀ p : P, ((w.bp ++ [p]).length : Int) = w.count + 1 := by
    intro p
    simp only [List.length_append, List.length_singleton, Nat.cast_add, Nat.cast_one]
    rw [hcount]
  refine ⟨?_, ?_, ?_, ?_, ?_, ?_⟩
  · intro p
    rw [hlen, step_point]
    by_cases h : w.count + 1 < batchSize
    · simp only [h, if_true]
      constructor
      · intro hne; exact absurd rfl hne
      · intro heq; omega
    · simp only [h, if_false, writeLoop_writes]
      constructor
      · intro _; omega
      · intro _; simp [List.replicate_succ]
  · rw [step_tick]
    by_cases h : w.bp.length = 0
    · simp only [h, if_true]
      have : w.bp = [] := List.length_eq_zero.mp h
      simp [this]
    · simp only [h, if_false, writeLoop_writes]
      have : w.bp ≠ [] := fun hnil => h (by rw [hnil]; rfl)
      simp [List.replicate_succ, this]
  · intro p b hb
    rw [step_point] at hb
    split at hb
    · simp at hb
    · rw [writeLoop_writes] at hb
      exact List.eq_of_mem_replicate hb
  · intro b hb
    rw [step_tick] at hb
    split at hb
    · simp at hb
    · rw [writeLoop_writes] at hb
      exact List.eq_of_mem_replicate hb
  · intro hnil
    simp [step_tick, hnil]
  · intro p hp
    rw [hlen] at hp
    simp [step_point, hp]

end WorkerClaims

/-- C10, witness: a threshold of 3 and a batch of two points. The third point brings
the size to 3 and the batch of three is written (twice: one failure, then the
success); the timer writes the batch of two. -/
theorem step_writes_iff_witness :
    Waiting 3 (⟨[10, 20], 2⟩ : Worker Nat) ∧
    step 3 (⟨[10, 20], 2⟩ : Worker Nat) (.point 30) 1 =
      ([[10, 20, 30], [10, 20, 30]], ⟨[], 0⟩) ∧
    step 3 (⟨[10, 20], 2⟩ : Worker Nat) .tick 0 = ([[10, 20]], ⟨[], 0⟩) ∧
    ((step 3 (⟨[10, 20], 2⟩ : Worker Nat) .tick 0).1 ≠ [] ↔
      (⟨[10, 20], 2⟩ : Worker Nat).bp ≠ []) :=
  ⟨by decide, by decide, by decide,
    (step_writes_iff 3 (⟨[10, 20], 2⟩ : Worker Nat) 0 (by decide)).2.1⟩


/-! ## C11: the write loop -/

section WriteLoop

variable {P : Type}

/-- C11. When `conn.Write` fails `k` times (with the errors `errs`, `k` their number)
and then succeeds, the write loop makes exactly `k + 1` calls, each with the batch
the loop was entered with, and leaves an empty batch and a counter of zero; the
results of later calls are left unused. The loop counted by its failures,
`writeLoop`, is this loop. -/
theorem writeLoopOn_fails_then_succeeds (w : Worker P) (errs : List GoError)
    (later : List (Option GoError)) :
    writeLoopOn w (errs.map some ++ none :: later) =
      (List.replicate (errs.length + 1) w.bp, some (⟨[], 0⟩, later)) ∧
    (writeLoopOn w (errs.map some ++ none :: later)).1.length = errs.length + 1 ∧
    (∀ b ∈ (writeLoopOn w (errs.map some ++ none :: later)).1, b = w.bp) ∧
    writeLoop w errs.length = (List.replicate (errs.length + 1) w.bp, ⟨[], 0⟩) := by
  have hon : writeLoopOn w (errs.map some ++ none :: later) =
      (List.replicate (errs.length + 1) w.bp, some (⟨[], 0⟩, later)) := by
    induction errs with
    | nil => rfl
    | cons e errs ih =>
      have hstep : writeLoopOn w ((e :: errs).map some ++ none :: later) =
          (w.bp :: (writeLoopOn w (errs.map some ++ none :: later)).1,
            (writeLoopOn w (errs.map some ++ none :: later)).2) := rfl
      rw [hstep, ih]
      rfl
  refine ⟨hon, ?_, ?_, ?_⟩
  · rw [hon]; simp
  · intro b hb
    rw [hon] at hb
    exact List.eq_of_mem_replicate hb
  · exact Prod.ext (writeLoop_writes w errs.length) (writeLoop_state w errs.length)

end WriteLoop

/-- C11, witness: two failed writes, then a success, on a batch of two points. -/
theorem writeLoopOn_fails_then_succeeds_witness :
    writeLoopOn (⟨[10, 20], 2⟩ : Worker Nat)
        ([GoError.ext 1, GoError.ext 2].map some ++ none :: [some (GoError.ext 3)]) =
      ([[10, 20], [10, 20], [10, 20]], some (⟨[], 0⟩, [some (GoError.ext 3)])) :=
  (writeLoopOn_fails_then_succeeds (⟨[10, 20], 2⟩ : Worker Nat)
    [GoError.ext 1, GoError.ext 2] [some (GoError.ext 3)]).1

/-! ## C12 and C20: runs of the worker -/

section Runs

variable {P : Type}

/-- The run over one more event. -/
theorem run_append_one (batchSize : Int) (events : List (Event P × Nat))
    (ev : Event P × Nat) :
    run batchSize (events ++ [ev]) = Run.next batchSize (run batchSize events) ev := by
  simp [run, List.foldl_append]

/-- The batch a round has written successfully is the batch of its write loop. -/
theorem flushed_writeLoop (w : Worker P) (fails : Nat) :
    flushed (writeLoop w fails).1 = [w.bp] := by
  rw [writeLoop_writes]
  unfold flushed
  rw [List.getLast?_eq_getLast _ (by simp)]
  simp [List.getLast_replicate]

/-- One round keeps the order of the points: what it has written successfully,
followed by the batch it leaves, is the batch it began with followed by the points
it took from the channel. -/
theorem step_fifo (batchSize : Int) (w : Worker P) (ev : Event P) (fails : Nat) :
    (flushed (step batchSize w ev fails).1).flatten ++ (step batchSize w ev fails).2.bp =
      w.bp ++ ev.points := by
  cases ev with
  | tick =>
    rw [step_tick]
    split
    · simp [flushed, Event.points]
    · rw [flushed_writeLoop, writeLoop_state]
      simp [Event.points]
  | point p =>
    rw [step_point]
    split
    · simp [flushed, Event.points]
    · rw [flushed_writeLoop, writeLoop_state]
      simp [Event.points]

/-- In a waiting state, every batch a round passes to `conn.Write` holds at least
one point and at most `batchSize` points. -/
theorem step_writes_size (batchSize : Int) (w : Worker P) (ev : Event P) (fails : Nat)
    (hw : Waiting batchSize w) :
    ∀ b ∈ (step batchSize w ev fails).1, 1 ≤ b.length ∧ (b.length : Int) ≤ batchSize := by
  obtain ⟨hcount, hlt⟩ := hw
  intro b hb
  cases ev with
  | tick =>
    rw [step_tick] at hb
    split at hb
    · simp at hb
    · rename_i hne
      rw [writeLoop_writes] at hb
      rw [List.eq_of_mem_replicate hb]
      constructor <;> omega
  | point p =>
    rw [step_point] at hb
    split at hb
    · simp at hb
    · rw [writeLoop_writes] at hb
      rw [List.eq_of_mem_replicate hb]
      simp only [List.length_append, List.length_singleton, Nat.cast_add, Nat.cast_one]
      constructor <;> omega

/-- C12. At every waiting state of every run, the batches written successfully, in
the order of their writes, followed by the current batch are exactly the points
taken from the channel so far, in the order they were taken: none is dropped, none
is there twice, none has changed place. -/
theorem run_fifo (batchSize : Int) (events : List (Event P × Nat)) :
    (run batchSize events).written.flatten ++ (run batchSize events).worker.bp =
      (run batchSize events).dequeued := by
  induction events using List.reverseRecOn with
  | nil => rfl
  | append_singleton events ev ih =>
    rw [run_append_one]
    simp only [Run.next, List.flatten_append, List.append_assoc]
    rw [step_fifo, ← List.append_assoc, ih]

/-- C20. For a threshold of at least 1, at every waiting state of every run the
counter is the number of points of the current batch and is below the threshold,
and every batch passed to `conn.Write` holds at least one point and at most as many
points as the threshold. -/
theorem run_waiting (batchSize : Int) (hbs : 1 ≤ batchSize)
    (events : List (Event P × Nat)) :
    ((run batchSize events).worker.count = (run batchSize events).worker.bp.length ∧
      (run batchSize events).worker.count < batchSize) ∧
    ∀ b ∈ (run batchSize events).calls, 1 ≤ b.length ∧ (b.length : Int) ≤ batchSize := by
  induction events using List.reverseRecOn with
  | nil =>
    refine ⟨⟨rfl, ?_⟩, ?_⟩
    · show (0 : Int) < batchSize
      omega
    · intro b hb
      simp [run, Run.init] at hb
  | append_singleton events ev ih =>
    rw [run_append_one]
    obtain ⟨hw, hcalls⟩ := ih
    refine ⟨waiting_step batchSize (by omega) _ ev.1 ev.2 hw, ?_⟩
    intro b hb
    simp only [Run.next, List.mem_append] at hb
    rcases hb with hb | hb
    · exact hcalls b hb
    · exact step_writes_size batchSize _ ev.1 ev.2 hw b hb

end Runs

/-- C12, witness: the run over `fiveEvents` with a threshold of 2 has written
`[10, 20]` and then `[30]`, holds an empty batch, and has taken 10, 20, 30. -/
theorem run_fifo_witness :
    (run 2 fiveEvents).written = [[10, 20], [30]] ∧
    (run 2 fiveEvents).worker.bp = [] ∧
    (run 2 fiveEvents).written.flatten ++ (run 2 fiveEvents).worker.bp =
      (run 2 fiveEvents).dequeued :=
  ⟨by decide, by decide, run_fifo 2 fiveEvents⟩

/-- C20, witness: the first four of `fiveEvents` with a threshold of 2, after which
one point waits in the batch. -/
theorem run_waiting_witness :
    (1 : Int) ≤ 2 ∧
    (run 2 (fiveEvents.take 4)).worker = ⟨[30], 1⟩ ∧
    (((run 2 (fiveEvents.take 4)).worker.count =
        (run 2 (fiveEvents.take 4)).worker.bp.length ∧
      (run 2 (fiveEvents.take 4)).worker.count < 2) ∧
    ∀ b ∈ (run 2 (fiveEvents.take 4)).calls, 1 ≤ b.length ∧ (b.length : Int) ≤ 2) :=
  ⟨by decide, by decide, run_waiting 2 (by decide) (fiveEvents.take 4)⟩

/-! ## C13: the defaults of `NewSender` -/

/-- C13. Each of the three settings `NewSender` works with is the value passed when
that is positive and its default otherwise (64 points, 8192 points, 60 seconds), so
all three are positive. -/
theorem applyDefaults_effective (batchSize queueSize period : Int) :
    (applyDefaults batchSize queueSize period).batchSize =
      (if 0 < batchSize then batchSize else 64) ∧
    (applyDefaults batchSize queueSize period).queueSize =
      (if 0 < queueSize then queueSize else 8192) ∧
    (applyDefaults batchSize queueSize period).period =
      (if 0 < period then period else 60) ∧
    0 < (applyDefaults batchSize queueSize period).batchSize ∧
    0 < (applyDefaults batchSize queueSize period).queueSize ∧
    0 < (applyDefaults batchSize queueSize period).period := by
  unfold applyDefaults DefaultBatchSize DefaultQueueSize DefaultPeriod
  simp only
  refine ⟨?_, ?_, ?_, ?_, ?_, ?_⟩ <;> split <;> omega

/-- C13, witness: a zero, a negative and a positive setting. -/
theorem applyDefaults_effective_witness :
    applyDefaults 0 (-5) 30 = ⟨64, 8192, 30⟩ ∧
    (0 < (applyDefaults 0 (-5) 30).batchSize ∧ 0 < (applyDefaults 0 (-5) 30).queueSize ∧
      0 < (applyDefaults 0 (-5) 30).period) :=
  ⟨by decide, (applyDefaults_effective 0 (-5) 30).2.2.2⟩


/-! ## C15: the ordered trial of `numerical` -/

section OrderedTrial

variable {F T : Type}

/-- C15. `numerical s` is the result of an ordered trial: the float the float parse
returns when that parse succeeds, whatever the integer parse would say; otherwise the
integer the integer parse (base 0, 64 bits) returns when that one succeeds; otherwise
`s` itself. -/
theorem numerical_ordered_trial (lib : Lib F T) (s : GoString) :
    (∀ f, lib.ParseFloat s = .ok f → numerical lib s = .float f) ∧
    (∀ e i, lib.ParseFloat s = .error e → lib.ParseInt s = .ok i →
      numerical lib s = .int i) ∧
    (∀ e e', lib.ParseFloat s = .error e → lib.ParseInt s = .error e' →
      numerical lib s = .str s) := by
  refine ⟨?_, ?_, ?_⟩
  · intro f hf
    simp only [numerical, hf]
  · intro e i hf hi
    simp only [numerical, hf, hi]
  · intro e e' hf hi
    simp only [numerical, hf, hi]

end OrderedTrial

/-- C15, witness: `42` parses both ways and becomes the float; `0x10` parses as an
integer only and becomes the integer 16; `abc` parses neither way and is kept. -/
theorem numerical_ordered_trial_witness :
    hexLib.ParseInt (ascii "42") = .ok 42 ∧
    numerical hexLib (ascii "42") = .float 42 ∧
    numerical hexLib (ascii "0x10") = .int 16 ∧
    numerical hexLib (ascii "abc") = .str (ascii "abc") :=
  ⟨rfl,
    (numerical_ordered_trial hexLib (ascii "42")).1 42 rfl,
    (numerical_ordered_trial hexLib (ascii "0x10")).2.1 (.ext 1) 16 rfl rfl,
    (numerical_ordered_trial hexLib (ascii "abc")).2.2 (.ext 1) (.ext 2) rfl rfl⟩

/-! ## C16: the field lists after a rule -/

section Extends

variable {F T : Type}

/-- A rule whose validation finds a mismatch: `refine` returns `ErrNoMatch` and
changes nothing. -/
theorem refine_of_validMismatch (lib : Lib F T) (data : GoMap GoString)
    (trans : Translate) (f : Filter) (valid : GoMap GoString)
    (hvalid : f.Valid = some valid) (hmis : validMismatch data valid = true) :
    refine lib data trans f = some ⟨some GoError.ErrNoMatch, data, trans, []⟩ := by
  simp [refine, hvalid, hmis]

/-- A mismatch of one listed field is a mismatch of the validation loop. -/
theorem validMismatch_of_mem (data valid : GoMap GoString) (k v : GoString)
    (hlisted : (k, v) ∈ valid) (hdiff : data.get k ≠ v) :
    validMismatch data valid = true := by
  unfold validMismatch
  rw [List.any_eq_true]
  exact ⟨(k, v), hlisted, by simpa using hdiff⟩

/-- A rule without a secondary pattern whose validation passes (or that has none):
`refine` returns nil, leaves the record as it was and appends the rule's `Good` and
`Tags` to the two lists. -/
theorem refine_no_pattern (lib : Lib F T) (data : GoMap GoString) (trans : Translate)
    (f : Filter)
    (hvalid : (match f.Valid with
      | some valid => validMismatch data valid
      | none => false) = false)
    (hpat : f.Pattern = []) :
    refine lib data trans f =
      some ⟨none, data,
        { trans with VFields := trans.VFields ++ f.Good,
                     TFields := trans.TFields ++ f.Tags }, []⟩ := by
  simp [refine, hvalid, hpat, extend]

/-- A rule with a secondary pattern whose validation passes (or that has none),
whose match succeeds and none of whose captures is the lone quote: `refine`
returns nil and appends the rule's `Good` and `Tags` to the two lists. -/
theorem refine_pattern_ok (lib : Lib F T) (data : GoMap GoString) (trans : Translate)
    (f : Filter) (matched : GoMap GoString)
    (hvalid : (match f.Valid with
      | some valid => validMismatch data valid
      | none => false) = false)
    (hpat : 0 < f.Pattern.length)
    (hmatch : lib.GrokParse f.Pattern (data.get f.Key) = .ok matched)
    (hquote : ∀ kv ∈ matched, kv.2 ≠ [quote]) :
    ∃ stored, storeCaptures data matched = some stored ∧
      refine lib data trans f =
        some ⟨none, stored,
          { trans with VFields := trans.VFields ++ f.Good,
                       TFields := trans.TFields ++ f.Tags },
          [.grokParse f.Pattern (data.get f.Key)]⟩ := by
  cases hs : storeCaptures data matched with
  | none =>
    obtain ⟨kv, hkv, hq⟩ := (storeCaptures_eq_none_iff matched data).mp hs
    exact absurd hq (hquote kv hkv)
  | some stored =>
    refine ⟨stored, rfl, ?_⟩
    simp [refine, hvalid, hpat, hmatch, hs, extend]

end Extends

/-- C16, evaluated on the code. The rule with neither validation nor pattern returns
nil and leaves the lists `value, bytes` and `host`. The rule `kvRule`, whose
validation is absent and whose match succeeds with the capture `a` being the lone
quote, ends in neither a validation mismatch nor a matcher error, and `refine` does
not return nil with the lists extended: it panics in the quote stripping. -/
theorem refine_extends_unless_lone_quote :
    (refine (exampleLib matchNothing) lineRecord lineTranslate promoteRule).map
        (fun r => (r.err, r.trans.VFields, r.trans.TFields)) =
      some (none, [ascii "value", ascii "bytes"], [ascii "host"]) ∧
    (refine (exampleLib (matchYields [(ascii "a", ascii "\"")])) lineRecord lineTranslate
        kvRule).map (fun r => (r.err, r.trans.VFields, r.trans.TFields)) = none := by
  decide

/-! ## C17: rules that all say no match -/

section NoMatch

variable {F T : Type}

/-- From any trace so far, rules that all find a validation mismatch are passed over
one by one and `AddPoint` is called on the record and the `Translate` as they were. -/
theorem processFrom_all_no_match (lib : Lib F T) (send : Sender F T)
    (tags : MapRef GoString) (m : GoMap GoString) (t : Translate)
    (filters : List Filter) :
    ∀ (trace : List (Effect F T)),
      (∀ f ∈ filters, ∃ valid, f.Valid = some valid ∧ validMismatch m valid = true) →
      processFrom lib send tags m t trace filters =
        (AddPoint lib m tags t send).map (fun a => ⟨a.err, m, a.tags, trace ++ a.trace⟩) := by
  induction filters with
  | nil =>
    intro trace _
    simp only [processFrom]
    cases AddPoint lib m tags t send <;> rfl
  | cons f filters ih =>
    intro trace h
    obtain ⟨valid, hvalid, hmis⟩ := h f (List.mem_cons_self f filters)
    have hr := refine_of_validMismatch lib m t f valid hvalid hmis
    rw [processFrom_cons_err lib send tags m t trace f filters _ GoError.ErrNoMatch hr rfl]
    simp only [List.append_nil]
    exact ih trace (fun g hg => h g (List.mem_cons_of_mem f hg))

/-- C17, as amended. When every rule of the list finds a validation mismatch on the
record (some listed field has another value than the one required), `process`
passes over every rule and ends in the call of `AddPoint` on the record as it was,
with the static `Translate` and so its static field lists: `process` panics,
returns and calls exactly as that call of `AddPoint` does, so no rule's `ErrNoMatch`
is what is returned. The matcher is never called, and every point the `Sender` gets
is built from the static tag and value field lists. A point is emitted, by exactly
one call of the `Sender`, whenever the tag loop does not panic (`tags` is not nil or
there is no tag field) and the timestamp is not to be read or is read. -/
theorem process_all_no_match (lib : Lib F T) (send : Sender F T) (trans : Translate)
    (filters : List Filter) (tags : MapRef GoString) (m : GoMap GoString)
    (hno : ∀ f ∈ filters, ∃ valid k v, f.Valid = some valid ∧ (k, v) ∈ valid ∧
      m.get k ≠ v) :
    process lib send trans filters tags m =
      (AddPoint lib m tags trans send).map (fun a => ⟨a.err, m, a.tags, a.trace⟩) ∧
    (∀ r, process lib send trans filters tags m = some r →
      r.data = m ∧ r.trace.filter Effect.isGrokParse = [] ∧
      ∀ key tg f ts, Effect.send key tg f ts ∈ r.trace →
        tagLoop m tags trans.TFields = some tg ∧ f = pointFields lib m trans.VFields) ∧
    ((tags ≠ none ∨ trans.TFields = []) →
      (¬ (0 < trans.TSLayout.length ∧ 0 < trans.TSField.length) ∨
        ∃ ts, lib.TimeParse trans.TSLayout (m.get trans.TSField) = .ok ts) →
      ∃ r key tg ts, process lib send trans filters tags m = some r ∧
        tagLoop m tags trans.TFields = some tg ∧
        r.trace.filter Effect.isSend =
          [.send key tg (pointFields lib m trans.VFields) ts] ∧
        r.err = send key tg (pointFields lib m trans.VFields) ts) := by
  have hproc : process lib send trans filters tags m =
      (AddPoint lib m tags trans send).map (fun a => ⟨a.err, m, a.tags, a.trace⟩) := by
    have h := processFrom_all_no_match lib send tags m trans filters []
      (fun f hf => by
        obtain ⟨valid, k, v, hvalid, hlisted, hdiff⟩ := hno f hf
        exact ⟨valid, hvalid, validMismatch_of_mem m valid k v hlisted hdiff⟩)
    simpa [process] using h
  refine ⟨hproc, ?_, ?_⟩
  · intro r hr
    rw [hproc] at hr
    cases ha : AddPoint lib m tags trans send with
    | none => rw [ha] at hr; cases hr
    | some a =>
      rw [ha] at hr
      simp only [Option.map_some', Option.some.injEq] at hr
      subst hr
      refine ⟨rfl, AddPoint_trace_no_grokParse lib m tags trans send a ha, ?_⟩
      intro key tg f ts h
      exact (AddPoint_send_args lib m tags trans send a key tg f ts ha h).2
  · intro htags htime
    obtain ⟨done, hloop⟩ : ∃ done, tagLoop m tags trans.TFields = some done := by
      cases hloop : tagLoop m tags trans.TFields with
      | none =>
        obtain ⟨h1, h2⟩ := (tagLoop_eq_none_iff m tags trans.TFields).mp hloop
        rcases htags with h | h
        · exact absurd h1 h
        · exact absurd h h2
      | some done => exact ⟨done, rfl⟩
    by_cases hcfg : 0 < trans.TSLayout.length ∧ 0 < trans.TSField.length
    · rcases htime with h | ⟨ts, hts⟩
      · exact absurd hcfg h
      · refine ⟨⟨send (pointKey m trans) done (pointFields lib m trans.VFields) ts, m, done,
          [.timeParse trans.TSLayout (m.get trans.TSField),
            .send (pointKey m trans) done (pointFields lib m trans.VFields) ts]⟩,
          pointKey m trans, done, ts, ?_, hloop, rfl, rfl⟩
        rw [hproc, AddPoint_parse_ok lib m tags done trans send ts hloop hcfg hts]
        rfl
    · refine ⟨⟨send (pointKey m trans) done (pointFields lib m trans.VFields) lib.Now, m,
        done, [.timeNow,
          .send (pointKey m trans) done (pointFields lib m trans.VFields) lib.Now]⟩,
        pointKey m trans, done, lib.Now, ?_, hloop, rfl, rfl⟩
      rw [hproc, AddPoint_now lib m tags done trans send hloop hcfg]
      rfl

end NoMatch

/-- C17, counterexample. The record `{host: b, ts: soon}` against a rule that
requires `level = error` and a rule that requires `value = 0`, with allocated base
tags and both timestamp settings: each rule says no match, and after the last rule
no point is emitted. `AddPoint` is called, `time.Parse` rejects `soon`, the `Sender`
is not called and `process` returns the error of `time.Parse`. -/
theorem process_all_no_match_bad_timestamp :
    (refine (exampleLib matchNothing) unstampedRecord stampedTranslate
        errorOnlyRule).map (fun r => r.err) = some (some GoError.ErrNoMatch) ∧
    (refine (exampleLib matchNothing) unstampedRecord stampedTranslate
        zeroOnlyRule).map (fun r => r.err) = some (some GoError.ErrNoMatch) ∧
    (process (exampleLib matchNothing) acceptAll stampedTranslate
        [errorOnlyRule, zeroOnlyRule] (some baseTags) unstampedRecord).map
        (fun r => (r.err, r.trace.filter Effect.isSend)) =
      some (some (GoError.ext 3), []) := by
  decide

/-- C17, witness: the record of `info 42` against a rule that requires
`level = error` and a rule that requires `value = 0`, with no timestamp setting:
the `Sender` is called once, with the key `info`, the caller's tags and the one
static value field. -/
theorem process_all_no_match_witness :
    (∀ f ∈ [errorOnlyRule, zeroOnlyRule], ∃ valid k v, f.Valid = some valid ∧
      (k, v) ∈ valid ∧ GoMap.get lineRecord k ≠ v) ∧
    (process (exampleLib (matchYields [(ascii "a", ascii "2")])) acceptAll lineTranslate
        [errorOnlyRule, zeroOnlyRule] (some baseTags) lineRecord).map
        (fun r => (r.err, r.trace)) =
      some (none,
        [.timeNow, .send (ascii "info") (some baseTags) [(ascii "value", .float 42)] 0]) ∧
    (∃ r key tg ts,
      process (exampleLib (matchYields [(ascii "a", ascii "2")])) acceptAll lineTranslate
          [errorOnlyRule, zeroOnlyRule] (some baseTags) lineRecord = some r ∧
        tagLoop lineRecord (some baseTags) lineTranslate.TFields = some tg ∧
        r.trace.filter Effect.isSend =
          [.send key tg
            (pointFields (exampleLib (matchYields [(ascii "a", ascii "2")])) lineRecord
              lineTranslate.VFields) ts] ∧
        r.err = acceptAll key tg
          (pointFields (exampleLib (matchYields [(ascii "a", ascii "2")])) lineRecord
            lineTranslate.VFields) ts) :=
  have hno : ∀ f ∈ [errorOnlyRule, zeroOnlyRule], ∃ valid k v, f.Valid = some valid ∧
      (k, v) ∈ valid ∧ GoMap.get lineRecord k ≠ v := by
    intro f hf
    simp only [List.mem_cons, List.mem_singleton, List.not_mem_nil, or_false] at hf
    rcases hf with rfl | rfl
    · exact ⟨_, ascii "level", ascii "error", rfl, by decide, by decide⟩
    · exact ⟨_, ascii "value", ascii "0", rfl, by decide, by decide⟩
  ⟨hno, by decide,
    (process_all_no_match (exampleLib (matchYields [(ascii "a", ascii "2")])) acceptAll
      lineTranslate [errorOnlyRule, zeroOnlyRule] (some baseTags) lineRecord hno).2.2
      (Or.inl (by decide)) (Or.inl (by decide))⟩

/-! ## C18 and C19: the quote stripping on values that are not wrapped -/

/-- A value that begins with a quote and has a further byte loses its first and its
last byte, whatever the last byte is. -/
theorem stripQuotes_leading_quote (s : GoString) (c : UInt8) :
    stripQuotes (quote :: (s ++ [c])) = some s := by
  have hb : 1 ≤ (quote :: (s ++ [c])).length - 1 ∧
      (quote :: (s ++ [c])).length - 1 ≤ (quote :: (s ++ [c])).length := by
    simp
  have ht : ((quote :: (s ++ [c])).take ((quote :: (s ++ [c])).length - 1)).drop 1 = s := by
    simp [List.take_append_eq_append_take]
  have hq : 0 < (quote :: (s ++ [c])).length ∧
      (quote :: (s ++ [c])).head? = some quote := ⟨by simp, rfl⟩
  unfold stripQuotes slice
  rw [if_pos hq, if_pos hb, ht]

/-- A value that does not begin with a quote is kept as it is. -/
theorem stripQuotes_no_leading_quote (v : GoString) (h : v.head? ≠ some quote) :
    stripQuotes v = some v := by
  unfold stripQuotes
  rw [if_neg (fun hq => h hq.2)]

/-- C18, evaluated on the code. For the one-character value made of a double quote
the bounds of `v[1 : len(v)-1]` are 1 and 0: the slice is out of range, the
stripping panics, and so do the round of the loop that stores the capture and
the loop itself. -/
theorem stripQuotes_lone_quote_out_of_range :
    (ascii "\"").length - 1 = 0 ∧
    slice (ascii "\"") 1 ((ascii "\"").length - 1) = none ∧
    stripQuotes (ascii "\"") = none ∧
    storeCapture smallRecord (ascii "a", ascii "\"") = none ∧
    storeCaptures smallRecord [(ascii "b", ascii "x"), (ascii "a", ascii "\"")] = none := by
  decide

/-- C19, evaluated on the code. The value `"ab`, which begins with a quote and does
not end with one, is stored as `a`: the byte `b`, no quote, is lost. The value
`"ab"` is stored as `ab` and the value `ab` as it is. -/
theorem stripQuotes_drops_last_byte :
    stripQuotes (ascii "\"ab") = some (ascii "a") ∧
    storeCapture smallRecord (ascii "a", ascii "\"ab") = some [(ascii "a", ascii "a")] ∧
    stripQuotes (ascii "\"ab\"") = some (ascii "ab") ∧
    stripQuotes (ascii "ab") = some (ascii "ab") := by
  decide

end Grokflux

